import Mathlib

/-!
Verification of `pyinfra/facts/npm.py` against its specification.

The module defines a regex `npm_regex` for lines of `npm list` output, and a
fact class `NpmPackages` whose class body binds `default = {}`, a string
attribute `command`, a method `command(self, directory=None)` shadowing that
attribute, and a method `process(self, output)` that calls
`parse_packages(npm_regex, output)` without returning its result.

`parse_packages` lives in `pyinfra/facts/util/packaging.py`, which is not part
of the provided sources; it is modelled from the specification below.
-/

namespace PyinfraNpm

/-- Character class `[a-zA-Z0-9\-]` of `npm_regex` (the package-name group). -/
def isNameChar (c : Char) : Bool :=
  (('a' ≤ c && c ≤ 'z') || ('A' ≤ c && c ≤ 'Z') || ('0' ≤ c && c ≤ '9') || c == '-')

/-- Character class `[0-9\.]` of `npm_regex` (the version group). -/
def isVersionChar (c : Char) : Bool :=
  ('0' ≤ c && c ≤ '9') || c == '.'

/-- The `\s` class of Python regular expressions, restricted to its ASCII
members (space, tab, newline, vertical tab, form feed, carriage return).
Python's `\s` additionally matches some non-ASCII Unicode whitespace; no line
format or claim here involves those characters. -/
def isPySpace (c : Char) : Bool :=
  c == ' ' || c == '\t' || c == '\n' || c == '\x0b' || c == '\x0c' || c == '\r'

/-- The source text of `npm_regex` from `pyinfra/facts/npm.py`:
`^[└├]\─\─\s([a-zA-Z0-9\-]+)@([0-9\.]+)$`. -/
def npm_regex : String := "^[└├]\\─\\─\\s([a-zA-Z0-9\\-]+)@([0-9\\.]+)$"

/-- Matching a single line against `npm_regex`, on the line's character list:
a tree glyph `└` or `├`, two `─` characters, one `\s` character, a nonempty
run of name characters, `@`, then a nonempty run of version characters
reaching the end of the line (Python's `$` also accepts a position just
before one final newline).  Because the name class excludes `@` and nothing
follows the anchored version group, greedy maximal-munch scanning coincides
with the regex engine's backtracking semantics.  Returns the two captured
groups on success. -/
def npmMatchChars : List Char → Option (String × String)
  | g :: d1 :: d2 :: s :: rest =>
    if (g == '└' || g == '├') && d1 == '─' && d2 == '─' && isPySpace s then
      match rest.dropWhile isNameChar with
      | '@' :: tail =>
        let name := rest.takeWhile isNameChar
        let ver := if tail.getLast? == some '\n' then tail.dropLast else tail
        if !name.isEmpty && !ver.isEmpty && ver.all isVersionChar then
          some (String.mk name, String.mk ver)
        else none
      | _ => none
    else none
  | _ => none

/-- `re.match(npm_regex, line)` restricted to the two captured groups. -/
def npmMatchLine (line : String) : Option (String × String) :=
  npmMatchChars line.data

/-- Python-dict insertion `packages[name] = version`: if the key is already
present its value is updated in place (keeping its position), otherwise the
pair is appended. -/
def upsert : List (String × String) → String → String → List (String × String)
  | [], n, v => [(n, v)]
  | (k, w) :: rest, n, v =>
    if k = n then (n, v) :: rest else (k, w) :: upsert rest n v

/-- Python-dict key lookup on the association-list representation. -/
def lookupPkg : List (String × String) → String → Option String
  | [], _ => none
  | (k, v) :: rest, n => if k = n then some v else lookupPkg rest n

/-- Modelled from the spec: `parse_packages` of
`pyinfra/facts/util/packaging.py` is imported by the source but absent from
the provided files.  Per the specification it applies the supplied pattern to
every line of the output independently, silently skips each line that does
not match, takes from each matching line exactly one (name, version) pair
with the version verbatim from the captured group, and resolves duplicate
names last-write-wins.  The pattern is passed as its line-matching function;
`parseStep` is its action on a single line of output. -/
def parseStep (matchLine : String → Option (String × String))
    (acc : List (String × String)) (line : String) : List (String × String) :=
  match matchLine line with
  | none => acc
  | some (n, v) => upsert acc n v

/-- Modelled from the spec: `parse_packages` folds `parseStep` over the lines
of the output, starting from the empty mapping. -/
def parse_packages (matchLine : String → Option (String × String))
    (output : List String) : List (String × String) :=
  output.foldl (parseStep matchLine) []

/-- The names captured by the pattern from the matching lines of the output,
in line order. -/
def matchedNames (matchLine : String → Option (String × String))
    (output : List String) : List String :=
  output.filterMap (fun l => (matchLine l).map Prod.fst)

/-- Modelled from the spec: the compilation check on a pattern's source text.
The specification names unbalanced grouping as the exemplary malformation, so
compilation is modelled as the balanced-parenthesis check on the regex source,
with `\(`-style escapes skipped. -/
def patternCompiles (src : String) : Bool :=
  go src.data 0
where
  go : List Char → Nat → Bool
  | [], d => d == 0
  | '\\' :: _ :: rest, d => go rest d
  | '(' :: rest, d => go rest (d + 1)
  | ')' :: _, 0 => false
  | ')' :: rest, d + 1 => go rest d
  | _ :: rest, d => go rest d

/-- A package-manager dialect: its identifier, the source text of its line
pattern, and the pattern's line-matching semantics. -/
structure Dialect where
  name : String
  source : String
  matcher : String → Option (String × String)

/-- Modelled from the spec: the error raised by `Parse` when the supplied
pattern fails to compile; it carries the dialect identifier rather than a raw
regex-engine message. -/
inductive ParseError where
  | invalidPattern (dialect : String)
deriving DecidableEq

/-- Modelled from the spec: `Parse(pattern, output)` checks that the pattern
compiles before any line of the output is processed, raising
`InvalidPatternError` naming the dialect if it does not, and otherwise parses
the lines with `parse_packages`. -/
def Parse (d : Dialect) (output : List String) :
    Except ParseError (List (String × String)) :=
  if patternCompiles d.source then .ok (parse_packages d.matcher output)
  else .error (.invalidPattern d.name)

/-- The npm dialect: `npm_regex` with its line semantics `npmMatchLine`. -/
def npmDialect : Dialect :=
  { name := "npm", source := npm_regex, matcher := npmMatchLine }

/-- A deliberately malformed dialect whose pattern source has an unbalanced
group, used to exercise the failure path of `Parse`. -/
def badDialect : Dialect :=
  { name := "broken", source := "([a-z]+@", matcher := npmMatchLine }

/-- The `command` method of `NpmPackages`:
`cd {directory} && npm list -g --depth=0` when `directory` is truthy (neither
`None` nor empty), else `npm list -g --depth=0`. -/
def NpmPackages.command (directory : Option String) : String :=
  if (match directory with
      | none => false
      | some s => !s.isEmpty) then
    "cd " ++ directory.getD "" ++ " && npm list -g --depth=0"
  else
    "npm list -g --depth=0"

/-- The `default = {}` class attribute of `NpmPackages`. -/
def NpmPackages.default : List (String × String) := []

/-- The `process` method of `NpmPackages`: its body calls
`parse_packages(npm_regex, output)` and has no `return` statement, so the
computed mapping is discarded and the method returns `None`. -/
def NpmPackages.process (output : List String) : Option (List (String × String)) :=
  let _discarded := parse_packages npmMatchLine output
  none

/-- A binding in a Python class body: a plain value or one of the two methods
of `NpmPackages`. -/
inductive ClassMember where
  | dictVal (entries : List (String × String))
  | strVal (s : String)
  | commandMethod
  | processMethod
deriving DecidableEq

/-- The class body of `NpmPackages` as the sequence of its bindings, in
source order: `default = {}`, the string attribute
`command = 'npm list -g --depth=0'`, the method `command(self, directory)`,
and the method `process(self, output)`. -/
def npmClassBody : List (String × ClassMember) :=
  [("default", .dictVal []),
   ("command", .strVal "npm list -g --depth=0"),
   ("command", .commandMethod),
   ("process", .processMethod)]

/-- Python class-body semantics: successive bindings to the same attribute
overwrite earlier ones, so attribute access resolves to the last binding. -/
def classAttr (body : List (String × ClassMember)) (attr : String) :
    Option ClassMember :=
  body.foldl (fun acc kv => if kv.1 = attr then some kv.2 else acc) none

end PyinfraNpm

namespace PyinfraNpm

/-- C1: parsing the three lines `/usr/local`, `└── eslint@7.32.0`,
`├── typescript@4.5.4` under the npm pattern yields exactly the mapping
eslint ↦ 7.32.0, typescript ↦ 4.5.4; the header line matches nothing and
contributes nothing. -/
theorem npm_list_example_parses :
    npmMatchLine "/usr/local" = none ∧
    parse_packages npmMatchLine
        ["/usr/local", "└── eslint@7.32.0", "├── typescript@4.5.4"]
      = [("eslint", "7.32.0"), ("typescript", "4.5.4")] := by
  constructor
  · rfl
  · rfl

/-- C9: for every output, `NpmPackages.process` returns `None`: the body
calls `parse_packages` but discards the result, having no return statement. -/
theorem process_returns_none (output : List String) :
    NpmPackages.process output = none := rfl

/-- Keys of an upsert: unchanged when the key is already present, the key
appended otherwise. -/
theorem keys_upsert (acc : List (String × String)) (n v : String) :
    (upsert acc n v).map Prod.fst =
      if n ∈ acc.map Prod.fst then acc.map Prod.fst
      else acc.map Prod.fst ++ [n] := by
  induction acc with
  | nil => simp [upsert]
  | cons p rest ih =>
    obtain ⟨k, w⟩ := p
    by_cases hk : k = n
    · subst hk
      simp [upsert]
    · have hnk : ¬n = k := fun hh => hk hh.symm
      simp only [upsert, if_neg hk, List.map_cons, ih, List.mem_cons, hnk, false_or]
      by_cases hn : n ∈ rest.map Prod.fst
      · simp [hn]
      · simp [hn]

/-- Membership in the keys after an upsert. -/
theorem mem_keys_upsert (acc : List (String × String)) (n v x : String) :
    x ∈ (upsert acc n v).map Prod.fst ↔ x ∈ acc.map Prod.fst ∨ x = n := by
  rw [keys_upsert]
  by_cases hn : n ∈ acc.map Prod.fst
  · simp only [if_pos hn]
    constructor
    · exact Or.inl
    · rintro (h | rfl)
      · exact h
      · exact hn
  · simp [if_neg hn]

/-- Upsert preserves distinctness of the keys. -/
theorem nodup_keys_upsert (acc : List (String × String)) (n v : String)
    (h : (acc.map Prod.fst).Nodup) : ((upsert acc n v).map Prod.fst).Nodup := by
  rw [keys_upsert]
  by_cases hn : n ∈ acc.map Prod.fst
  · simpa [if_pos hn] using h
  · simp only [if_neg hn]
    rw [List.nodup_append]
    refine ⟨h, List.nodup_singleton n, ?_⟩
    intro a ha hb
    rw [List.mem_singleton] at hb
    subst hb
    exact hn ha

/-- Looking up the upserted key yields the upserted value. -/
theorem lookupPkg_upsert_self (acc : List (String × String)) (n v : String) :
    lookupPkg (upsert acc n v) n = some v := by
  induction acc with
  | nil => simp [upsert, lookupPkg]
  | cons p rest ih =>
    obtain ⟨k, w⟩ := p
    by_cases hk : k = n
    · subst hk
      simp [upsert, lookupPkg]
    · simp [upsert, lookupPkg, hk, ih]

/-- Looking up a different key is unchanged by an upsert. -/
theorem lookupPkg_upsert_ne (acc : List (String × String)) (n v x : String)
    (h : x ≠ n) : lookupPkg (upsert acc n v) x = lookupPkg acc x := by
  have hnx : ¬n = x := fun hh => h hh.symm
  induction acc with
  | nil => simp [upsert, lookupPkg, hnx]
  | cons p rest ih =>
    obtain ⟨k, w⟩ := p
    by_cases hk : k = n
    · subst hk
      simp [upsert, lookupPkg, hnx]
    · simp [upsert, lookupPkg, hk, ih]

/-- Folding `parseStep` over lines that all fail to match leaves the
accumulator unchanged. -/
theorem foldl_parseStep_of_no_match (m : String → Option (String × String))
    (out : List String) :
    ∀ acc : List (String × String), (∀ l ∈ out, m l = none) →
      out.foldl (parseStep m) acc = acc := by
  induction out with
  | nil => intro acc _; rfl
  | cons line rest ih =>
    intro acc h
    have hline : m line = none := h line (List.mem_cons_self line rest)
    have hrest : ∀ l ∈ rest, m l = none := fun l hl => h l (List.mem_cons_of_mem _ hl)
    simp only [List.foldl_cons, parseStep, hline]
    exact ih acc hrest

/-- Folding `parseStep` over lines none of which matches the key `n` leaves
the lookup of `n` unchanged. -/
theorem foldl_parseStep_lookup_skip (m : String → Option (String × String))
    (n : String) (out : List String) :
    ∀ acc : List (String × String),
      (∀ l ∈ out, ∀ p, m l = some p → p.1 ≠ n) →
      lookupPkg (out.foldl (parseStep m) acc) n = lookupPkg acc n := by
  induction out with
  | nil => intro acc _; rfl
  | cons line rest ih =>
    intro acc h
    have hrest : ∀ l ∈ rest, ∀ p, m l = some p → p.1 ≠ n :=
      fun l hl => h l (List.mem_cons_of_mem _ hl)
    simp only [List.foldl_cons]
    rw [ih _ hrest]
    cases hm : m line with
    | none => simp [parseStep, hm]
    | some p =>
      obtain ⟨n', v'⟩ := p
      have hne : n' ≠ n := h line (List.mem_cons_self line rest) (n', v') hm
      simp only [parseStep, hm]
      exact lookupPkg_upsert_ne acc n' v' n fun hh => hne hh.symm

/-- Membership in the keys accumulated by folding `parseStep`. -/
theorem mem_keys_foldl_parseStep (m : String → Option (String × String))
    (out : List String) :
    ∀ (acc : List (String × String)) (x : String),
      x ∈ (out.foldl (parseStep m) acc).map Prod.fst ↔
        x ∈ acc.map Prod.fst ∨ x ∈ matchedNames m out := by
  induction out with
  | nil => intro acc x; simp [matchedNames]
  | cons line rest ih =>
    intro acc x
    simp only [List.foldl_cons]
    rw [ih]
    cases hm : m line with
    | none => simp [parseStep, hm, matchedNames]
    | some p =>
      obtain ⟨n, v⟩ := p
      simp only [parseStep, hm, mem_keys_upsert, matchedNames,
        List.filterMap_cons, Option.map_some]
      simp only [matchedNames] at *
      constructor
      · rintro ((h | rfl) | h)
        · exact Or.inl h
        · exact Or.inr (List.mem_cons_self _ _)
        · exact Or.inr (List.mem_cons_of_mem _ h)
      · rintro (h | h)
        · exact Or.inl (Or.inl h)
        · rcases List.mem_cons.mp h with rfl | h
          · exact Or.inl (Or.inr rfl)
          · exact Or.inr h

/-- Folding `parseStep` preserves distinctness of the accumulated keys. -/
theorem nodup_keys_foldl_parseStep (m : String → Option (String × String))
    (out : List String) :
    ∀ acc : List (String × String), ((acc.map Prod.fst)).Nodup →
      ((out.foldl (parseStep m) acc).map Prod.fst).Nodup := by
  induction out with
  | nil => intro acc h; exact h
  | cons line rest ih =>
    intro acc h
    simp only [List.foldl_cons]
    apply ih
    cases hm : m line with
    | none => simpa [parseStep, hm] using h
    | some p =>
      obtain ⟨n, v⟩ := p
      simp only [parseStep, hm]
      exact nodup_keys_upsert acc n v h

/-- C10: in the class body of `NpmPackages` the string attribute
`command = 'npm list -g --depth=0'` is shadowed by the method of the same
name bound afterwards, so attribute access on `command` resolves to the
method and never to the string value. -/
theorem command_attribute_shadowed :
    classAttr npmClassBody "command" = some ClassMember.commandMethod ∧
    ∀ s, classAttr npmClassBody "command" ≠ some (ClassMember.strVal s) := by
  refine ⟨by rfl, ?_⟩
  intro s
  simp [classAttr, npmClassBody]

/-- C2: the `command` method returns `npm list -g --depth=0` when the
directory argument is absent (None) or empty, and
`cd <directory> && npm list -g --depth=0` when a non-empty directory is
given, e.g. `cd /srv/app && npm list -g --depth=0` for `/srv/app`; as a
Lean function it is pure, with no execution and no side effects. -/
theorem command_builds_list_command :
    NpmPackages.command none = "npm list -g --depth=0" ∧
    NpmPackages.command (some "") = "npm list -g --depth=0" ∧
    (∀ d : String, d ≠ "" →
      NpmPackages.command (some d) = "cd " ++ d ++ " && npm list -g --depth=0") ∧
    NpmPackages.command (some "/srv/app") = "cd /srv/app && npm list -g --depth=0" := by
  refine ⟨rfl, rfl, ?_, rfl⟩
  intro d hd
  simp [NpmPackages.command, String.isEmpty_iff, hd]

/-- C2 witness: the `command` method evaluated at the concrete directory
`/srv/app`. -/
theorem command_builds_list_command_witness :
    NpmPackages.command (some "/srv/app") = "cd /srv/app && npm list -g --depth=0" :=
  command_builds_list_command.2.2.1 "/srv/app" (by decide)

/-- C3: the parse applies the pattern to each line independently: appending
a non-matching line leaves the result unchanged, appending a matching line
contributes exactly its captured (name, version) pair, and for any dialect
whose pattern compiles, `Parse` succeeds on every output, never failing
because of unparseable content. -/
theorem parse_per_line_independent (m : String → Option (String × String))
    (out : List String) (line : String) :
    (m line = none → parse_packages m (out ++ [line]) = parse_packages m out) ∧
    (∀ n v, m line = some (n, v) →
      parse_packages m (out ++ [line]) = upsert (parse_packages m out) n v) ∧
    (∀ d : Dialect, patternCompiles d.source = true →
      Parse d out = .ok (parse_packages d.matcher out)) := by
  refine ⟨?_, ?_, ?_⟩
  · intro h
    simp [parse_packages, List.foldl_append, parseStep, h]
  · intro n v h
    simp [parse_packages, List.foldl_append, parseStep, h]
  · intro d h
    simp [Parse, h]

/-- C3 witness: the three parts of the per-line theorem at concrete lines:
a skipped header line, a matching line, and the npm dialect succeeding. -/
theorem parse_per_line_independent_witness :
    (parse_packages npmMatchLine (["└── a@1.0"] ++ ["/usr/local"])
      = parse_packages npmMatchLine ["└── a@1.0"]) ∧
    (parse_packages npmMatchLine (["/usr/local"] ++ ["└── a@1.0"])
      = upsert (parse_packages npmMatchLine ["/usr/local"]) "a" "1.0") ∧
    (Parse npmDialect ["└── a@1.0"]
      = .ok (parse_packages npmDialect.matcher ["└── a@1.0"])) :=
  ⟨(parse_per_line_independent npmMatchLine ["└── a@1.0"] "/usr/local").1 (by rfl),
   (parse_per_line_independent npmMatchLine ["/usr/local"] "└── a@1.0").2.1
     "a" "1.0" (by rfl),
   (parse_per_line_independent npmMatchLine ["└── a@1.0"] "/usr/local").2.2
     npmDialect (by rfl)⟩

/-- C4 counterexample: the spec's literal lines `└──lodash@4.1.0` and
`└──lodash@4.2.0` lack the whitespace that `npm_regex` requires after the
tree glyphs (`\s`), so neither line matches and the parse yields the empty
mapping, not lodash ↦ 4.2.0. -/
theorem lww_literal_lines_do_not_match :
    npmMatchLine "└──lodash@4.1.0" = none ∧
    npmMatchLine "└──lodash@4.2.0" = none ∧
    parse_packages npmMatchLine ["└──lodash@4.1.0", "└──lodash@4.2.0"] = [] ∧
    parse_packages npmMatchLine ["└──lodash@4.1.0", "└──lodash@4.2.0"]
      ≠ [("lodash", "4.2.0")] := by
  refine ⟨rfl, rfl, rfl, ?_⟩
  decide

/-- C4 amended: duplicate names resolve last-write-wins — if a line matching
(n, v) is followed only by lines that do not match the name n, the result
maps n to v; in particular the two lines `└── lodash@4.1.0` then
`└── lodash@4.2.0`, written with the whitespace the pattern requires, yield
exactly lodash ↦ 4.2.0. -/
theorem last_write_wins (m : String → Option (String × String))
    (out1 out2 : List String) (line n v : String)
    (hline : m line = some (n, v))
    (hafter : ∀ l ∈ out2, ∀ p, m l = some p → p.1 ≠ n) :
    lookupPkg (parse_packages m (out1 ++ line :: out2)) n = some v ∧
    parse_packages npmMatchLine ["└── lodash@4.1.0", "└── lodash@4.2.0"]
      = [("lodash", "4.2.0")] := by
  refine ⟨?_, rfl⟩
  have hsplit : out1 ++ line :: out2 = (out1 ++ [line]) ++ out2 := by simp
  rw [hsplit]
  unfold parse_packages
  rw [List.foldl_append]
  rw [foldl_parseStep_lookup_skip m n out2 _ hafter]
  rw [List.foldl_append]
  simp only [List.foldl_cons, List.foldl_nil, parseStep, hline]
  exact lookupPkg_upsert_self _ n v

/-- C4 witness: last-write-wins applied at the two corrected literal lines. -/
theorem last_write_wins_witness :
    lookupPkg (parse_packages npmMatchLine
        (["└── lodash@4.1.0"] ++ "└── lodash@4.2.0" :: [])) "lodash"
      = some "4.2.0" :=
  (last_write_wins npmMatchLine ["└── lodash@4.1.0"] [] "└── lodash@4.2.0"
    "lodash" "4.2.0" (by rfl) (by simp)).1

/-- C5: the empty output parses to the empty mapping, and so does any output
none of whose lines matches the pattern; no error is possible since the
parse is a total function. -/
theorem parse_empty_output (m : String → Option (String × String))
    (out : List String) :
    parse_packages m [] = [] ∧
    ((∀ l ∈ out, m l = none) → parse_packages m out = []) := by
  refine ⟨rfl, ?_⟩
  intro h
  exact foldl_parseStep_of_no_match m out [] h

/-- C5 witness: an output of two header/noise lines, none matching, parses
to the empty mapping. -/
theorem parse_empty_output_witness :
    parse_packages npmMatchLine ["/usr/local", "npm ERR"] = [] :=
  (parse_empty_output npmMatchLine ["/usr/local", "npm ERR"]).2 (by decide)

/-- C6: when every line of the output matches the pattern, the size of the
parsed mapping equals the number of distinct names among the matched
lines. -/
theorem parse_size_eq_distinct_names (m : String → Option (String × String))
    (out : List String) (h : ∀ l ∈ out, (m l).isSome) :
    (parse_packages m out).length = (matchedNames m out).toFinset.card := by
  have hkeys : ∀ x, x ∈ (parse_packages m out).map Prod.fst ↔
      x ∈ matchedNames m out := by
    intro x
    rw [parse_packages, mem_keys_foldl_parseStep]
    simp
  have hnodup : ((parse_packages m out).map Prod.fst).Nodup := by
    rw [parse_packages]
    exact nodup_keys_foldl_parseStep m out [] (by simp)
  have hfin : ((parse_packages m out).map Prod.fst).toFinset
      = (matchedNames m out).toFinset := by
    apply Finset.ext
    intro x
    rw [List.mem_toFinset, List.mem_toFinset]
    exact hkeys x
  calc (parse_packages m out).length
      = ((parse_packages m out).map Prod.fst).length := (List.length_map _ _).symm
    _ = ((parse_packages m out).map Prod.fst).toFinset.card :=
        (List.toFinset_card_of_nodup hnodup).symm
    _ = (matchedNames m out).toFinset.card := by rw [hfin]

/-- C6 witness: three matching lines carrying two distinct names parse to a
mapping of size two. -/
theorem parse_size_eq_distinct_names_witness :
    (parse_packages npmMatchLine ["└── a@1.0", "├── b@2.0", "└── a@3.0"]).length
      = (matchedNames npmMatchLine ["└── a@1.0", "├── b@2.0", "└── a@3.0"]).toFinset.card :=
  parse_size_eq_distinct_names npmMatchLine ["└── a@1.0", "├── b@2.0", "└── a@3.0"]
    (by decide)

/-- C7: `Parse` fails exactly when the dialect's pattern fails to compile;
the failure is the `InvalidPatternError` carrying the dialect identifier,
and it is raised before any line is processed: the result on a
non-compiling dialect is the same for every output. -/
theorem parse_fails_iff_pattern_malformed (d : Dialect) (out : List String) :
    ((∃ e, Parse d out = .error e) ↔ patternCompiles d.source = false) ∧
    (patternCompiles d.source = false →
      Parse d out = .error (.invalidPattern d.name) ∧
      ∀ out', Parse d out = Parse d out') := by
  by_cases h : patternCompiles d.source = true
  · simp [Parse, h]
  · rw [Bool.not_eq_true] at h
    simp [Parse, h]

/-- C7 witness: a dialect whose pattern has an unbalanced group fails with
the error naming that dialect. -/
theorem parse_fails_iff_pattern_malformed_witness :
    Parse badDialect ["└── a@1.0"] = .error (.invalidPattern "broken") :=
  (((parse_fails_iff_pattern_malformed badDialect ["└── a@1.0"]).2) (by rfl)).1

/-- C8: determinism — parsing and command building are pure functions: two
invocations on identical inputs yield identical results; no hidden state
exists in the embedding. -/
theorem parse_and_command_deterministic (m : String → Option (String × String))
    (out out' : List String) (d d' : Option String) :
    (out = out' → parse_packages m out = parse_packages m out') ∧
    (d = d' → NpmPackages.command d = NpmPackages.command d') := by
  constructor
  · intro h
    rw [h]
  · intro h
    rw [h]

/-- C8 witness: determinism at a concrete output and a concrete directory. -/
theorem parse_and_command_deterministic_witness :
    parse_packages npmMatchLine ["└── a@1.0"] = parse_packages npmMatchLine ["└── a@1.0"] ∧
    NpmPackages.command (some "/srv/app") = NpmPackages.command (some "/srv/app") :=
  ⟨(parse_and_command_deterministic npmMatchLine ["└── a@1.0"] ["└── a@1.0"]
      (some "/srv/app") (some "/srv/app")).1 rfl,
   (parse_and_command_deterministic npmMatchLine ["└── a@1.0"] ["└── a@1.0"]
      (some "/srv/app") (some "/srv/app")).2 rfl⟩

end PyinfraNpm
